import Mathlib

/-!
Shallow embedding of `src/compiler/cs2/allocator.h` (C++ namespace `CS2`):
the `shared_allocator` wrapper and the segment-chained bump allocator
`arena_allocator`, together with proofs of properties of the design.

Conventions of the embedding:

* `size_t` is modelled by `Nat`.  On the modelled LP64 platform
  `sizeof(size_t) = 8` and `sizeof(Segment) = 16` (one pointer plus one
  `size_t`).  The source's `size_t` arithmetic is exact (never wraps)
  for genuine template parameters; theorems whose meaning depends on the
  value of `arena_size()` carry the hypothesis
  `sizeofSegment ≤ segmentsize`, under which the C expression
  `segmentsize - sizeof(Segment)` does not wrap either.
* The backing allocator (`base_allocator`) hands out pairwise-distinct
  blocks; the block obtained by the `i`-th backing `allocate` call is
  identified by the number `i`, and the field `backingAllocs` logs each
  backing request as a pair `(block id, requested bytes)`.
* A pointer into arena memory is a pair: the id of the backing block
  (segment) it lies in plus a byte offset from the block's start, so
  `(char *)new_segment + sizeof(Segment)` becomes offset `sizeofSegment`
  inside the block of `new_segment`.
* Byte contents of memory are modelled by a function `Ptr → Nat`,
  updated only by the `memcpy` performed in `reallocate`.
-/

namespace CS2

/-- Value of `sizeof(size_t)` on the modelled LP64 platform. -/
def wordSize : Nat := 8

/-- Value of `sizeof(Segment)` on the modelled platform: the header holds
one pointer (`struct Segment *next`) and one `size_t` (`size`). -/
def sizeofSegment : Nat := 16

/-- Embedding of `static size_t arena_size() { return segmentsize - sizeof(Segment); }`
(line 111).  Usable bytes of a full-size segment. -/
def arena_size (segmentsize : Nat) : Nat := segmentsize - sizeofSegment

/-- Embedding of the rounding line of `allocate` (line 114):
`if (size % sizeof(size_t)) size = (size/sizeof(size_t)+1)*sizeof(size_t);`. -/
def roundUp (size : Nat) : Nat :=
  if size % wordSize ≠ 0 then (size / wordSize + 1) * wordSize else size

/-- A segment of the arena: `struct Segment { struct Segment *next; size_t size; }`
(lines 94-97).  The `next` pointer is represented by the position in the
chain list of `ArenaState`; `id` is the identity of the backing block the
segment lives in, and `size` is the header's `size` field. -/
structure Segment where
  id : Nat
  size : Nat
deriving DecidableEq, Repr

/-- A pointer into arena-managed memory: backing block id plus byte offset
from the start of that block. -/
structure Ptr where
  segId : Nat
  off : Nat
deriving DecidableEq, Repr

/-- State of one `arena_allocator` instance: the private members
`Segment *segment` (head-first chain list) and `size_t allocated`
(lines 156-158), together with the model of the backing allocator
(`nextId` = fresh block supply, `backingAllocs` = log of backing
requests `(block id, bytes)`). -/
structure ArenaState where
  chain : List Segment
  allocated : Nat
  nextId : Nat
  backingAllocs : List (Nat × Nat)
deriving DecidableEq, Repr

/-- Embedding of the constructor `arena_allocator(base_allocator b) :
segment(NULL), allocated(0)` (line 100), with a fresh backing supply. -/
def initialArena : ArenaState :=
  { chain := [], allocated := 0, nextId := 0, backingAllocs := [] }

/-- Embedding of the `segment==NULL || allocated+size>arena_size()` branch of
`allocate` (lines 124-132): obtain a full `segmentsize`-byte block from the
backing allocator, record `segmentsize` in the header, make it the new head
(its `next` is the old head), reset the cursor to the (already rounded)
`size`, and return the start of the new data region.  `size` is the rounded
request. -/
def ArenaState.newHeadSegment (segmentsize : Nat) (st : ArenaState) (size : Nat) :
    Ptr × ArenaState :=
  (⟨st.nextId, sizeofSegment⟩,
   { chain := ⟨st.nextId, segmentsize⟩ :: st.chain,
     allocated := size,
     nextId := st.nextId + 1,
     backingAllocs := st.backingAllocs ++ [(st.nextId, segmentsize)] })

/-- Embedding of `arena_allocator::allocate` (lines 113-138).  The three
branches mirror the source: `if (segment && size>=arena_size())` splices a
dedicated segment right after the head; `else if (segment==NULL ||
allocated+size>arena_size())` starts a new head segment; `else` bumps the
cursor inside the head segment. -/
def ArenaState.allocate (segmentsize : Nat) (st : ArenaState) (size0 : Nat) :
    Ptr × ArenaState :=
  let size := roundUp size0
  match st.chain with
  | head :: rest =>
    if arena_size segmentsize ≤ size then
      (⟨st.nextId, sizeofSegment⟩,
       { chain := head :: ⟨st.nextId, sizeofSegment + size⟩ :: rest,
         allocated := st.allocated,
         nextId := st.nextId + 1,
         backingAllocs := st.backingAllocs ++ [(st.nextId, sizeofSegment + size)] })
    else if arena_size segmentsize < st.allocated + size then
      st.newHeadSegment segmentsize size
    else
      (⟨head.id, sizeofSegment + st.allocated⟩,
       { st with allocated := st.allocated + size })
  | [] => st.newHeadSegment segmentsize size

/-- Embedding of `arena_allocator::deallocate` (lines 140-142): a no-op. -/
def ArenaState.deallocate (st : ArenaState) (pointer : Ptr) (size : Nat) : ArenaState :=
  st

/-- Semantics of `memcpy(ret, pointer, size)` (line 147) on the byte model:
bytes `dst.off ≤ q.off < dst.off + n` of block `dst.segId` now hold the
corresponding bytes read from `src`. -/
def memcpy (mem : Ptr → Nat) (dst src : Ptr) (n : Nat) : Ptr → Nat :=
  fun q =>
    if q.segId = dst.segId ∧ dst.off ≤ q.off ∧ q.off < dst.off + n then
      mem ⟨src.segId, src.off + (q.off - dst.off)⟩
    else
      mem q

/-- Embedding of `arena_allocator::reallocate` (lines 144-149): if
`newsize <= size` return the pointer unchanged; otherwise allocate
`newsize` fresh bytes and `memcpy` the first `size` bytes over. -/
def ArenaState.reallocate (segmentsize : Nat) (st : ArenaState) (mem : Ptr → Nat)
    (newsize : Nat) (pointer : Ptr) (size : Nat) :
    Ptr × ArenaState × (Ptr → Nat) :=
  if newsize ≤ size then (pointer, st, mem)
  else
    let r := st.allocate segmentsize newsize
    (r.1, r.2, memcpy mem r.1 pointer size)

/-- Embedding of the destructor `~arena_allocator` (lines 101-109): walk the
chain and call `base_allocator::deallocate(s, s->size)` for each segment.
The result is the list of backing deallocation calls `(block id, bytes)` in
the order they are issued. -/
def destroy (st : ArenaState) : List (Nat × Nat) :=
  st.chain.map fun s => (s.id, s.size)

/-- Embedding of `arena_allocator::operator=` (lines 151-154): the body only
returns `*this`; nothing of the receiver is modified. -/
def ArenaState.assign (a : ArenaState) (a2 : ArenaState) : ArenaState := a

/-- One client operation on an arena, for reasoning about whole call
sequences. -/
inductive Op where
  | alloc (size : Nat)
  | dealloc (pointer : Ptr) (size : Nat)
  | realloc (newsize : Nat) (pointer : Ptr) (size : Nat)
deriving DecidableEq, Repr

/-- State transition of one operation (the byte memory does not influence
the allocator state, so `reallocate` is run with an arbitrary memory). -/
def stepOp (segmentsize : Nat) (st : ArenaState) : Op → ArenaState
  | .alloc size => (st.allocate segmentsize size).2
  | .dealloc pointer size => st.deallocate pointer size
  | .realloc newsize pointer size =>
      (st.reallocate segmentsize (fun _ => 0) newsize pointer size).2.1

/-- Run a sequence of operations from the freshly constructed arena. -/
def run (segmentsize : Nat) (ops : List Op) : ArenaState :=
  ops.foldl (stepOp segmentsize) initialArena

/-- Embedding of `shared_allocator<base_allocator>` (lines 59-89): its only
state is the reference `base_allocator &base;` modelled by the address
identity of the referenced instance. -/
structure shared_allocator where
  base : Nat
deriving DecidableEq, Repr

/-- Embedding of `operator ==` (line 86): `&left.base == &right.base`. -/
def shared_allocator.beq (left right : shared_allocator) : Bool :=
  left.base == right.base

/-- Embedding of `operator !=` (line 88): `!(operator ==(left, right))`. -/
def shared_allocator.bne (left right : shared_allocator) : Bool :=
  ! shared_allocator.beq left right

/-- Embedding of `shared_allocator::operator=` (lines 77-80): the body only
returns `*this`; the `base` reference is never reseated. -/
def shared_allocator.assign (s : shared_allocator) (a2 : shared_allocator) :
    shared_allocator := s

/-- Id of the backing block holding the head segment, if any. -/
def headId (st : ArenaState) : Option Nat :=
  match st.chain with
  | [] => none
  | head :: _ => some head.id

/-- Well-formedness of the backing-block supply: every segment of the
chain lives in a block that has already been issued. -/
def WF (st : ArenaState) : Prop := ∀ seg ∈ st.chain, seg.id < st.nextId

/-- Region `r` (pointer plus rounded size) is one the arena can still hand
out at or after state `st`: inside the current head segment it starts at
or beyond the cursor, and a region of any other segment lives in a backing
block not yet issued. -/
def RegionAfter (st : ArenaState) (r : Ptr × Nat) : Prop :=
  (headId st = some r.1.segId → sizeofSegment + st.allocated ≤ r.1.off) ∧
  (headId st ≠ some r.1.segId → st.nextId ≤ r.1.segId)

/-- Ordering of two handed-out regions: if they lie in the same segment,
the earlier one ends at or before the later one starts. -/
def regionOrd (r1 r2 : Ptr × Nat) : Prop :=
  r1.1.segId = r2.1.segId → r1.1.off + r1.2 ≤ r2.1.off

/-- Run a list of `allocate` requests, collecting each handed-out region
(pointer plus rounded size) together with the final state. -/
def runAllocs (segmentsize : Nat) (st : ArenaState) :
    List Nat → List (Ptr × Nat) × ArenaState
  | [] => ([], st)
  | size :: rest =>
    let r := st.allocate segmentsize size
    let rr := runAllocs segmentsize r.2 rest
    ((r.1, roundUp size) :: rr.1, rr.2)

/-- Specification of a fresh-arena request sequence: within one segment
the handed-out regions are disjoint and at strictly increasing addresses,
and each region's recorded extent is the word-rounded request, never less
than requested. -/
def allocsSpec (segmentsize : Nat) (sizes : List Nat) : Prop :=
  List.Pairwise
    (fun r1 r2 => r1.1.segId = r2.1.segId →
      r1.1.off + r1.2 ≤ r2.1.off ∧ r1.1.off < r2.1.off)
    (runAllocs segmentsize initialArena sizes).1 ∧
  ((runAllocs segmentsize initialArena sizes).1).map Prod.snd = sizes.map roundUp ∧
  (∀ s ∈ sizes, s ≤ roundUp s)

/-- Claim C8: `a == b` holds exactly when `a` and `b` reference the
identically same base-allocator instance (address identity), and `a != b`
holds exactly when `a == b` does not. -/
theorem shared_allocator_eq_iff_same_base (a b : shared_allocator) :
    (shared_allocator.beq a b = true ↔ a.base = b.base) ∧
    (shared_allocator.bne a b = true ↔ ¬ shared_allocator.beq a b = true) := by
  constructor
  · simp [shared_allocator.beq]
  · simp [shared_allocator.bne]

/-- Claim C9: assignment is a state no-op for both wrapper types: the
shared wrapper keeps its base reference, and the arena keeps its segment
chain, cursor and backing-allocator state. -/
theorem assign_noop (s s2 : shared_allocator) (a a2 : ArenaState) :
    shared_allocator.assign s s2 = s ∧
    (ArenaState.assign a a2).chain = a.chain ∧
    (ArenaState.assign a a2).allocated = a.allocated ∧
    (ArenaState.assign a a2).nextId = a.nextId ∧
    (ArenaState.assign a a2).backingAllocs = a.backingAllocs :=
  ⟨rfl, rfl, rfl, rfl, rfl⟩

/-- Claim C1 fails on the code: on a fresh `arena_allocator<64>` the first
request of 49 bytes rounds to 56 ≥ `arena_size() = 48`, yet — because the
dedicated-segment branch requires `segment != NULL` — it is served from a
new full 64-byte head segment whose cursor is set to 56, violating the
invariant `allocated ≤ arena_size()` (the returned 56-byte region even
extends past the 64-byte backing block). -/
theorem large_first_alloc_breaks_cursor_invariant :
    (run 64 [Op.alloc 49]).allocated = 56 ∧
    arena_size 64 = 48 ∧
    ¬ ((run 64 [Op.alloc 49]).allocated ≤ arena_size 64) := by
  decide

/-- Claim C2: with a head segment present, a request whose rounded size is
at least `arena_size()` obtains exactly `sizeof(Segment) + rounded size`
bytes from the backing allocator, records that exact size in the new
segment's header, splices the new segment immediately after the head (the
head itself is unchanged), and returns the address just past the new
header. -/
theorem allocate_large_with_head_spliced (segmentsize : Nat) (st : ArenaState)
    (head : Segment) (rest : List Segment) (size : Nat)
    (hseg : sizeofSegment ≤ segmentsize)
    (hchain : st.chain = head :: rest)
    (hlarge : arena_size segmentsize ≤ roundUp size) :
    (st.allocate segmentsize size).2.backingAllocs =
      st.backingAllocs ++ [(st.nextId, sizeofSegment + roundUp size)] ∧
    (st.allocate segmentsize size).2.chain =
      head :: ⟨st.nextId, sizeofSegment + roundUp size⟩ :: rest ∧
    (st.allocate segmentsize size).1 = ⟨st.nextId, sizeofSegment⟩ := by
  obtain ⟨ch, al, ni, ba⟩ := st
  simp only at hchain
  subst hchain
  simp [ArenaState.allocate, hlarge]

/-- Witness for C2: one 64-byte head segment exists (created by a 10-byte
request), then a 1000-byte request creates a dedicated `16 + 1000`-byte
segment spliced in after the head. -/
theorem allocate_large_with_head_spliced_witness :
    sizeofSegment ≤ 64 ∧
    (initialArena.allocate 64 10).2.chain = [⟨0, 64⟩] ∧
    arena_size 64 ≤ roundUp 1000 ∧
    (((initialArena.allocate 64 10).2.allocate 64 1000).2.backingAllocs =
      (initialArena.allocate 64 10).2.backingAllocs ++
        [((initialArena.allocate 64 10).2.nextId, sizeofSegment + roundUp 1000)] ∧
    ((initialArena.allocate 64 10).2.allocate 64 1000).2.chain =
      ⟨0, 64⟩ :: ⟨(initialArena.allocate 64 10).2.nextId, sizeofSegment + roundUp 1000⟩ :: [] ∧
    ((initialArena.allocate 64 10).2.allocate 64 1000).1 =
      ⟨(initialArena.allocate 64 10).2.nextId, sizeofSegment⟩) :=
  ⟨by decide, by decide, by decide,
   allocate_large_with_head_spliced 64 (initialArena.allocate 64 10).2
     ⟨0, 64⟩ [] 1000 (by decide) (by decide) (by decide)⟩

/-- Claim C6: when the rounded size is below the large-request threshold
and either no head segment exists or the head cannot fit it, a full
`segmentsize`-byte segment is obtained from the backing allocator, becomes
the new head with its `next` set to the old head, the cursor is reset to
the rounded size, and the returned pointer is the start of the new data
region. -/
theorem allocate_new_head_spec (segmentsize : Nat) (st : ArenaState) (size : Nat)
    (hseg : sizeofSegment ≤ segmentsize)
    (hsmall : roundUp size < arena_size segmentsize)
    (hfull : st.chain = [] ∨ arena_size segmentsize < st.allocated + roundUp size) :
    st.allocate segmentsize size =
      (⟨st.nextId, sizeofSegment⟩,
       { chain := ⟨st.nextId, segmentsize⟩ :: st.chain,
         allocated := roundUp size,
         nextId := st.nextId + 1,
         backingAllocs := st.backingAllocs ++ [(st.nextId, segmentsize)] }) := by
  obtain ⟨ch, al, ni, ba⟩ := st
  match ch with
  | [] =>
    simp [ArenaState.allocate, ArenaState.newHeadSegment]
  | head :: rest =>
    rcases hfull with hfull | hfull
    · exact absurd hfull (by simp)
    · simp only at hfull
      simp [ArenaState.allocate, ArenaState.newHeadSegment,
        Nat.not_le_of_lt hsmall, hfull]

/-- Witness for C6: a 64-byte arena with 40 of 48 usable bytes consumed;
a 16-byte request does not fit and starts a new head segment. -/
theorem allocate_new_head_spec_witness :
    sizeofSegment ≤ 64 ∧
    roundUp 16 < arena_size 64 ∧
    arena_size 64 < (initialArena.allocate 64 40).2.allocated + roundUp 16 ∧
    (initialArena.allocate 64 40).2.allocate 64 16 =
      (⟨(initialArena.allocate 64 40).2.nextId, sizeofSegment⟩,
       { chain := ⟨(initialArena.allocate 64 40).2.nextId, 64⟩ ::
           (initialArena.allocate 64 40).2.chain,
         allocated := roundUp 16,
         nextId := (initialArena.allocate 64 40).2.nextId + 1,
         backingAllocs := (initialArena.allocate 64 40).2.backingAllocs ++
           [((initialArena.allocate 64 40).2.nextId, 64)] }) :=
  ⟨by decide, by decide, by decide,
   allocate_new_head_spec 64 (initialArena.allocate 64 40).2 16
     (by decide) (by decide) (Or.inr (by decide))⟩

/-- Claim C7: with a head segment present, a request whose rounded size is
at least `arena_size()` leaves the head segment and the cursor `allocated`
unchanged, so a subsequent small request that fits is placed contiguously
at `head_data_start + allocated`. -/
theorem allocate_large_preserves_cursor (segmentsize : Nat) (st : ArenaState)
    (head : Segment) (rest : List Segment) (size size2 : Nat)
    (hseg : sizeofSegment ≤ segmentsize)
    (hchain : st.chain = head :: rest)
    (hlarge : arena_size segmentsize ≤ roundUp size)
    (hsmall2 : roundUp size2 < arena_size segmentsize)
    (hfits : st.allocated + roundUp size2 ≤ arena_size segmentsize) :
    (st.allocate segmentsize size).2.chain.head? = some head ∧
    (st.allocate segmentsize size).2.allocated = st.allocated ∧
    ((st.allocate segmentsize size).2.allocate segmentsize size2).1 =
      ⟨head.id, sizeofSegment + st.allocated⟩ := by
  obtain ⟨ch, al, ni, ba⟩ := st
  simp only at hchain
  subst hchain
  simp only at hfits
  simp [ArenaState.allocate, hlarge, Nat.not_le_of_lt hsmall2,
    Nat.not_lt_of_le hfits]

/-- Witness for C7: one head segment with cursor 16; a 1000-byte request
leaves head and cursor alone, and a following 8-byte request lands at
offset `16 + 16` of the head segment. -/
theorem allocate_large_preserves_cursor_witness :
    sizeofSegment ≤ 64 ∧
    (initialArena.allocate 64 10).2.chain = [⟨0, 64⟩] ∧
    arena_size 64 ≤ roundUp 1000 ∧
    roundUp 8 < arena_size 64 ∧
    (initialArena.allocate 64 10).2.allocated + roundUp 8 ≤ arena_size 64 ∧
    (((initialArena.allocate 64 10).2.allocate 64 1000).2.chain.head? = some ⟨0, 64⟩ ∧
    ((initialArena.allocate 64 10).2.allocate 64 1000).2.allocated =
      (initialArena.allocate 64 10).2.allocated ∧
    (((initialArena.allocate 64 10).2.allocate 64 1000).2.allocate 64 8).1 =
      ⟨Segment.id ⟨0, 64⟩, sizeofSegment + (initialArena.allocate 64 10).2.allocated⟩) :=
  ⟨by decide, by decide, by decide, by decide, by decide,
   allocate_large_preserves_cursor 64 (initialArena.allocate 64 10).2
     ⟨0, 64⟩ [] 1000 8 (by decide) (by decide) (by decide) (by decide) (by decide)⟩

/-- Helper: one `allocate` call preserves the correspondence between the
teardown deallocations and the log of backing requests, and keeps one
chain entry per created segment. -/
theorem allocate_teardown_inv (segmentsize : Nat) (st : ArenaState) (s : Nat)
    (hp : List.Perm (destroy st) st.backingAllocs)
    (hl : st.chain.length = st.nextId) :
    List.Perm (destroy (st.allocate segmentsize s).2)
      (st.allocate segmentsize s).2.backingAllocs ∧
    (st.allocate segmentsize s).2.chain.length = (st.allocate segmentsize s).2.nextId := by
  obtain ⟨ch, al, ni, ba⟩ := st
  simp only [destroy] at hp hl ⊢
  match ch with
  | [] =>
    simp only [ArenaState.allocate, ArenaState.newHeadSegment, List.map_cons,
      List.map_nil, List.length_cons] at hp hl ⊢
    constructor
    · exact (List.Perm.cons _ hp).trans (List.perm_append_singleton _ _).symm
    · omega
  | head :: rest =>
    simp only [ArenaState.allocate, ArenaState.newHeadSegment, List.map_cons,
      List.length_cons] at hp hl ⊢
    split
    · constructor
      · exact (List.Perm.swap _ _ _).trans
          ((List.Perm.cons _ hp).trans (List.perm_append_singleton _ _).symm)
      · simp only [List.length_cons]
        omega
    · split
      · constructor
        · exact (List.Perm.cons _ hp).trans (List.perm_append_singleton _ _).symm
        · simp only [List.length_cons]
          omega
      · exact ⟨hp, hl⟩

/-- Helper: running any operation preserves the teardown correspondence. -/
theorem stepOp_teardown_inv (segmentsize : Nat) (st : ArenaState) (op : Op)
    (hp : List.Perm (destroy st) st.backingAllocs)
    (hl : st.chain.length = st.nextId) :
    List.Perm (destroy (stepOp segmentsize st op))
      (stepOp segmentsize st op).backingAllocs ∧
    (stepOp segmentsize st op).chain.length = (stepOp segmentsize st op).nextId := by
  match op with
  | .alloc s => exact allocate_teardown_inv segmentsize st s hp hl
  | .dealloc pointer s => exact ⟨hp, hl⟩
  | .realloc newsize pointer s =>
    simp only [stepOp, ArenaState.reallocate]
    split
    · exact ⟨hp, hl⟩
    · exact allocate_teardown_inv segmentsize st newsize hp hl

/-- Helper: the teardown correspondence holds from any start state, along
any operation sequence. -/
theorem foldl_teardown_inv (segmentsize : Nat) (ops : List Op) (st : ArenaState)
    (hp : List.Perm (destroy st) st.backingAllocs)
    (hl : st.chain.length = st.nextId) :
    List.Perm (destroy (ops.foldl (stepOp segmentsize) st))
      (ops.foldl (stepOp segmentsize) st).backingAllocs ∧
    (ops.foldl (stepOp segmentsize) st).chain.length =
      (ops.foldl (stepOp segmentsize) st).nextId := by
  induction ops generalizing st with
  | nil => exact ⟨hp, hl⟩
  | cons op rest ih =>
    obtain ⟨hp2, hl2⟩ := stepOp_teardown_inv segmentsize st op hp hl
    exact ih (stepOp segmentsize st op) hp2 hl2

/-- Claim C3: after any sequence of operations, tearing the arena down
issues one backing `deallocate(s, s->size)` per segment, and these calls
are — as a multiset — exactly the backing `allocate` requests: same block,
same byte count as originally requested (`segmentsize` for full segments,
`sizeof(Segment) + rounded size` for dedicated ones); their number equals
the number N of segments ever created. -/
theorem destroy_matches_backing_requests (segmentsize : Nat) (ops : List Op) :
    List.Perm (destroy (run segmentsize ops)) (run segmentsize ops).backingAllocs ∧
    (destroy (run segmentsize ops)).length = (run segmentsize ops).nextId ∧
    (destroy (run segmentsize ops)).length = (run segmentsize ops).chain.length := by
  obtain ⟨hp, hl⟩ := foldl_teardown_inv segmentsize ops initialArena
    (List.Perm.refl _) rfl
  exact ⟨hp, by simpa [destroy] using hl, by simp [destroy]⟩

/-- Helper: rounded sizes are multiples of the word size. -/
theorem roundUp_mod (s : Nat) : roundUp s % wordSize = 0 := by
  unfold roundUp wordSize
  split <;> omega

/-- Helper: requested sizes never shrink by rounding. -/
theorem le_roundUp (s : Nat) : s ≤ roundUp s := by
  unfold roundUp wordSize
  split <;> omega

/-- Helper: one `allocate` keeps the cursor a multiple of the word size. -/
theorem allocate_allocated_mod (segmentsize : Nat) (st : ArenaState) (s : Nat)
    (h : st.allocated % wordSize = 0) :
    (st.allocate segmentsize s).2.allocated % wordSize = 0 := by
  obtain ⟨ch, al, ni, ba⟩ := st
  simp only at h
  match ch with
  | [] =>
    simpa [ArenaState.allocate, ArenaState.newHeadSegment] using roundUp_mod s
  | head :: rest =>
    simp only [ArenaState.allocate, ArenaState.newHeadSegment]
    split
    · simpa using h
    · split
      · simpa using roundUp_mod s
      · have hr := roundUp_mod s
        simp only
        unfold wordSize at h hr ⊢
        omega

/-- Helper: every operation keeps the cursor a multiple of the word size. -/
theorem stepOp_allocated_mod (segmentsize : Nat) (st : ArenaState) (op : Op)
    (h : st.allocated % wordSize = 0) :
    (stepOp segmentsize st op).allocated % wordSize = 0 := by
  match op with
  | .alloc s => exact allocate_allocated_mod segmentsize st s h
  | .dealloc pointer s => exact h
  | .realloc newsize pointer s =>
    simp only [stepOp, ArenaState.reallocate]
    split
    · exact h
    · exact allocate_allocated_mod segmentsize st newsize h

/-- Helper: along any run, the cursor is a multiple of the word size. -/
theorem run_allocated_mod (segmentsize : Nat) (ops : List Op) :
    (run segmentsize ops).allocated % wordSize = 0 := by
  suffices h : ∀ st : ArenaState, st.allocated % wordSize = 0 →
      (ops.foldl (stepOp segmentsize) st).allocated % wordSize = 0 by
    exact h initialArena rfl
  induction ops with
  | nil => exact fun st h => h
  | cons op rest ih =>
    exact fun st h => ih (stepOp segmentsize st op) (stepOp_allocated_mod segmentsize st op h)

/-- Helper: the pointer returned by `allocate` is at offset
`sizeof(Segment)` or `sizeof(Segment) + allocated` in its segment. -/
theorem allocate_ptr_off (segmentsize : Nat) (st : ArenaState) (s : Nat) :
    (st.allocate segmentsize s).1.off = sizeofSegment ∨
    (st.allocate segmentsize s).1.off = sizeofSegment + st.allocated := by
  obtain ⟨ch, al, ni, ba⟩ := st
  match ch with
  | [] => exact Or.inl rfl
  | head :: rest =>
    simp only [ArenaState.allocate, ArenaState.newHeadSegment]
    split
    · exact Or.inl rfl
    · split
      · exact Or.inl rfl
      · exact Or.inr rfl

/-- Claim C10: in any reachable arena state, the pointer handed out by
`allocate` sits at offset `sizeof(Segment)` plus a word-multiple inside
its segment; since `sizeof(Segment)` is itself a word-multiple, the
offset is word-aligned (so the pointer is word-aligned whenever the
backing allocator returns word-aligned blocks). -/
theorem allocate_returns_word_aligned (segmentsize : Nat) (ops : List Op) (size : Nat) :
    sizeofSegment % wordSize = 0 ∧
    (∃ k, ((run segmentsize ops).allocate segmentsize size).1.off =
      sizeofSegment + k * wordSize) ∧
    ((run segmentsize ops).allocate segmentsize size).1.off % wordSize = 0 := by
  have hmod := run_allocated_mod segmentsize ops
  have hoff := allocate_ptr_off segmentsize (run segmentsize ops) size
  refine ⟨rfl, ?_, ?_⟩
  · rcases hoff with h | h
    · exact ⟨0, by simpa using h⟩
    · refine ⟨(run segmentsize ops).allocated / wordSize, ?_⟩
      rw [h]
      unfold wordSize at hmod ⊢
      omega
  · rcases hoff with h | h <;> rw [h] <;> unfold sizeofSegment wordSize at hmod ⊢ <;> omega

/-- Helper: `allocate` never removes a segment from the chain: the old
chain is a sublist of the new one (the new segment is consed in front or
spliced right after the head). -/
theorem chain_sublist_allocate (segmentsize : Nat) (st : ArenaState) (s : Nat) :
    List.Sublist st.chain (st.allocate segmentsize s).2.chain := by
  obtain ⟨ch, al, ni, ba⟩ := st
  match ch with
  | [] => exact List.nil_sublist _
  | head :: rest =>
    simp only [ArenaState.allocate, ArenaState.newHeadSegment]
    split
    · exact List.Sublist.cons₂ _ (List.Sublist.cons _ (List.Sublist.refl _))
    · split
      · exact List.Sublist.cons _ (List.Sublist.refl _)
      · exact List.Sublist.refl _

/-- Helper: reading byte `i < n` of the destination after
`memcpy dst src n` yields byte `i` of the source. -/
theorem memcpy_read (mem : Ptr → Nat) (dst src : Ptr) (n i : Nat) (hi : i < n) :
    memcpy mem dst src n ⟨dst.segId, dst.off + i⟩ = mem ⟨src.segId, src.off + i⟩ := by
  unfold memcpy
  dsimp only
  rw [if_pos ⟨rfl, Nat.le_add_right _ _, by omega⟩]
  have h2 : dst.off + i - dst.off = i := by omega
  rw [h2]

/-- Claim C4: `reallocate(newsize, p, size)` with `newsize ≤ size` returns
`p` and leaves state and memory untouched; with `newsize > size` it
returns the pointer of a fresh `allocate(newsize)`, keeps every old
segment in the chain (nothing is released), and the returned region's
first `size` bytes equal the original bytes at `p`. -/
theorem reallocate_spec (segmentsize : Nat) (st : ArenaState) (mem : Ptr → Nat)
    (newsize : Nat) (p : Ptr) (size : Nat) (i : Nat) :
    (newsize ≤ size → st.reallocate segmentsize mem newsize p size = (p, st, mem)) ∧
    (size < newsize →
      (st.reallocate segmentsize mem newsize p size).1 =
        (st.allocate segmentsize newsize).1 ∧
      (st.reallocate segmentsize mem newsize p size).2.1 =
        (st.allocate segmentsize newsize).2 ∧
      List.Sublist st.chain (st.reallocate segmentsize mem newsize p size).2.1.chain ∧
      (i < size →
        (st.reallocate segmentsize mem newsize p size).2.2
          ⟨(st.reallocate segmentsize mem newsize p size).1.segId,
            (st.reallocate segmentsize mem newsize p size).1.off + i⟩ =
          mem ⟨p.segId, p.off + i⟩)) := by
  constructor
  · intro h
    simp [ArenaState.reallocate, h]
  · intro h
    have hnot : ¬ newsize ≤ size := Nat.not_le.mpr h
    simp only [ArenaState.reallocate, if_neg hnot]
    refine ⟨by trivial, by trivial, chain_sublist_allocate segmentsize st newsize, ?_⟩
    intro hi
    exact memcpy_read mem (st.allocate segmentsize newsize).1 p size i hi

/-- Witness for C4: on a one-segment arena, shrinking an old 16-byte
region to 8 returns the pointer with nothing changed, and growing it to
24 returns the fresh bump pointer with byte 8 copied over. -/
theorem reallocate_spec_witness :
    (8 ≤ 16) ∧
    (initialArena.allocate 64 16).2.reallocate 64 (fun q => q.off) 8 ⟨0, 16⟩ 16 =
      (⟨0, 16⟩, (initialArena.allocate 64 16).2, (fun q => q.off)) ∧
    (16 < 24) ∧ (8 < 16) ∧
    ((initialArena.allocate 64 16).2.reallocate 64 (fun q => q.off) 24 ⟨0, 16⟩ 16).1 =
      ((initialArena.allocate 64 16).2.allocate 64 24).1 ∧
    ((initialArena.allocate 64 16).2.reallocate 64 (fun q => q.off) 24 ⟨0, 16⟩ 16).2.1 =
      ((initialArena.allocate 64 16).2.allocate 64 24).2 ∧
    ((initialArena.allocate 64 16).2.reallocate 64 (fun q => q.off) 24 ⟨0, 16⟩ 16).2.2
      ⟨((initialArena.allocate 64 16).2.reallocate 64 (fun q => q.off) 24 ⟨0, 16⟩ 16).1.segId,
        ((initialArena.allocate 64 16).2.reallocate 64 (fun q => q.off) 24 ⟨0, 16⟩ 16).1.off + 8⟩ =
      (fun q => q.off) (⟨0, 16 + 8⟩ : Ptr) :=
  ⟨by decide,
   (reallocate_spec 64 (initialArena.allocate 64 16).2 (fun q => q.off) 8 ⟨0, 16⟩ 16 0).1
     (by decide),
   by decide, by decide,
   ((reallocate_spec 64 (initialArena.allocate 64 16).2 (fun q => q.off) 24 ⟨0, 16⟩ 16 8).2
     (by decide)).1,
   ((reallocate_spec 64 (initialArena.allocate 64 16).2 (fun q => q.off) 24 ⟨0, 16⟩ 16 8).2
     (by decide)).2.1,
   ((reallocate_spec 64 (initialArena.allocate 64 16).2 (fun q => q.off) 24 ⟨0, 16⟩ 16 8).2
     (by decide)).2.2.2 (by decide)⟩

/-- Helper: value of `allocate` on an empty arena (the
`segment==NULL` case of the second branch). -/
theorem allocate_eq_empty (segmentsize al ni : Nat) (ba : List (Nat × Nat)) (s : Nat) :
    ArenaState.allocate segmentsize ⟨[], al, ni, ba⟩ s =
      (⟨ni, sizeofSegment⟩,
       ⟨[⟨ni, segmentsize⟩], roundUp s, ni + 1, ba ++ [(ni, segmentsize)]⟩) :=
  rfl

/-- Helper: value of `allocate` in the `segment && size>=arena_size()`
branch (dedicated segment spliced in after the head). -/
theorem allocate_eq_dedicated (segmentsize al ni : Nat) (ba : List (Nat × Nat))
    (head : Segment) (rest : List Segment) (s : Nat)
    (hc1 : arena_size segmentsize ≤ roundUp s) :
    ArenaState.allocate segmentsize ⟨head :: rest, al, ni, ba⟩ s =
      (⟨ni, sizeofSegment⟩,
       ⟨head :: ⟨ni, sizeofSegment + roundUp s⟩ :: rest, al, ni + 1,
        ba ++ [(ni, sizeofSegment + roundUp s)]⟩) := by
  simp only [ArenaState.allocate]
  rw [if_pos hc1]

/-- Helper: value of `allocate` in the `allocated+size>arena_size()` case
of the second branch with a head segment present. -/
theorem allocate_eq_newhead (segmentsize al ni : Nat) (ba : List (Nat × Nat))
    (head : Segment) (rest : List Segment) (s : Nat)
    (hc1 : ¬ arena_size segmentsize ≤ roundUp s)
    (hc2 : arena_size segmentsize < al + roundUp s) :
    ArenaState.allocate segmentsize ⟨head :: rest, al, ni, ba⟩ s =
      (⟨ni, sizeofSegment⟩,
       ⟨⟨ni, segmentsize⟩ :: head :: rest, roundUp s, ni + 1,
        ba ++ [(ni, segmentsize)]⟩) := by
  simp only [ArenaState.allocate, ArenaState.newHeadSegment]
  rw [if_neg hc1, if_pos hc2]

/-- Helper: value of `allocate` in the bump (third) branch. -/
theorem allocate_eq_bump (segmentsize al ni : Nat) (ba : List (Nat × Nat))
    (head : Segment) (rest : List Segment) (s : Nat)
    (hc1 : ¬ arena_size segmentsize ≤ roundUp s)
    (hc2 : ¬ arena_size segmentsize < al + roundUp s) :
    ArenaState.allocate segmentsize ⟨head :: rest, al, ni, ba⟩ s =
      (⟨head.id, sizeofSegment + al⟩,
       ⟨head :: rest, al + roundUp s, ni, ba⟩) := by
  simp only [ArenaState.allocate]
  rw [if_neg hc1, if_neg hc2]

/-- Helper: `allocate` preserves well-formedness of the block supply. -/
theorem WF_allocate (segmentsize : Nat) (st : ArenaState) (s : Nat) (h : WF st) :
    WF (st.allocate segmentsize s).2 := by
  obtain ⟨ch, al, ni, ba⟩ := st
  simp only [WF] at h ⊢
  match ch with
  | [] =>
    rw [allocate_eq_empty]
    intro seg hseg
    have h2 : seg = ⟨ni, segmentsize⟩ := List.mem_singleton.mp hseg
    rw [h2]
    exact Nat.lt_succ_self ni
  | head :: rest =>
    by_cases hc1 : arena_size segmentsize ≤ roundUp s
    · rw [allocate_eq_dedicated segmentsize al ni ba head rest s hc1]
      intro seg hseg
      rcases List.mem_cons.mp hseg with h1 | hseg2
      · rw [h1]
        exact Nat.lt_succ_of_lt (h head (List.mem_cons_self _ _))
      · rcases List.mem_cons.mp hseg2 with h2 | h3
        · rw [h2]
          exact Nat.lt_succ_self ni
        · exact Nat.lt_succ_of_lt (h seg (List.mem_cons_of_mem _ h3))
    · by_cases hc2 : arena_size segmentsize < al + roundUp s
      · rw [allocate_eq_newhead segmentsize al ni ba head rest s hc1 hc2]
        intro seg hseg
        rcases List.mem_cons.mp hseg with h1 | h2
        · rw [h1]
          exact Nat.lt_succ_self ni
        · exact Nat.lt_succ_of_lt (h seg h2)
      · rw [allocate_eq_bump segmentsize al ni ba head rest s hc1 hc2]
        exact h

/-- Helper: the region handed out by `allocate` is one the pre-state could
still hand out. -/
theorem RegionAfter_self (segmentsize : Nat) (st : ArenaState) (s : Nat) (hwf : WF st) :
    RegionAfter st ((st.allocate segmentsize s).1, roundUp s) := by
  obtain ⟨ch, al, ni, ba⟩ := st
  simp only [WF] at hwf
  match ch with
  | [] =>
    rw [allocate_eq_empty]
    simp only [RegionAfter, headId]
    constructor
    · intro hh
      simp at hh
    · intro _
      exact Nat.le_refl ni
  | head :: rest =>
    have hhead : head.id < ni := hwf head (List.mem_cons_self _ _)
    by_cases hc1 : arena_size segmentsize ≤ roundUp s
    · rw [allocate_eq_dedicated segmentsize al ni ba head rest s hc1]
      simp only [RegionAfter, headId]
      constructor
      · intro hh
        exfalso
        have h0 : head.id = ni := by simpa using hh
        omega
      · intro _
        exact Nat.le_refl ni
    · by_cases hc2 : arena_size segmentsize < al + roundUp s
      · rw [allocate_eq_newhead segmentsize al ni ba head rest s hc1 hc2]
        simp only [RegionAfter, headId]
        constructor
        · intro hh
          exfalso
          have h0 : head.id = ni := by simpa using hh
          omega
        · intro _
          exact Nat.le_refl ni
      · rw [allocate_eq_bump segmentsize al ni ba head rest s hc1 hc2]
        simp only [RegionAfter, headId]
        constructor
        · intro _
          exact Nat.le_refl _
        · intro hh
          exact absurd rfl hh

/-- Helper: a region the post-state of an `allocate` can still hand out is
also one the pre-state could still hand out. -/
theorem RegionAfter_allocate (segmentsize : Nat) (st : ArenaState) (s : Nat)
    (r : Ptr × Nat) (hwf : WF st)
    (h : RegionAfter (st.allocate segmentsize s).2 r) : RegionAfter st r := by
  obtain ⟨ch, al, ni, ba⟩ := st
  simp only [WF] at hwf
  match ch with
  | [] =>
    rw [allocate_eq_empty] at h
    simp only [RegionAfter, headId] at h ⊢
    obtain ⟨h1, h2⟩ := h
    constructor
    · intro hh
      simp at hh
    · intro _
      by_cases hc : r.1.segId = ni
      · omega
      · have hx : ni + 1 ≤ r.1.segId := h2 (by
          intro hcon
          have h3 : ni = r.1.segId := by simpa using hcon
          omega)
        omega
  | head :: rest =>
    have hhead : head.id < ni := hwf head (List.mem_cons_self _ _)
    by_cases hc1 : arena_size segmentsize ≤ roundUp s
    · rw [allocate_eq_dedicated segmentsize al ni ba head rest s hc1] at h
      simp only [RegionAfter, headId] at h ⊢
      obtain ⟨h1, h2⟩ := h
      constructor
      · intro hh
        exact h1 hh
      · intro hh
        have hx : ni + 1 ≤ r.1.segId := h2 hh
        omega
    · by_cases hc2 : arena_size segmentsize < al + roundUp s
      · rw [allocate_eq_newhead segmentsize al ni ba head rest s hc1 hc2] at h
        simp only [RegionAfter, headId] at h ⊢
        obtain ⟨h1, h2⟩ := h
        constructor
        · intro hh
          exfalso
          have h0 : head.id = r.1.segId := by simpa using hh
          have hx : ni + 1 ≤ r.1.segId := h2 (by
            intro hcon
            have h3 : ni = r.1.segId := by simpa using hcon
            omega)
          omega
        · intro hh
          by_cases hc : r.1.segId = ni
          · omega
          · have hx : ni + 1 ≤ r.1.segId := h2 (by
              intro hcon
              have h3 : ni = r.1.segId := by simpa using hcon
              omega)
            omega
      · rw [allocate_eq_bump segmentsize al ni ba head rest s hc1 hc2] at h
        simp only [RegionAfter, headId] at h ⊢
        obtain ⟨h1, h2⟩ := h
        constructor
        · intro hh
          have hx := h1 hh
          omega
        · intro hh
          exact h2 hh

/-- Helper: the region handed out by `allocate` ends at or before any
region the post-state can still hand out, whenever both lie in the same
segment. -/
theorem regionOrd_allocate (segmentsize : Nat) (st : ArenaState) (s : Nat)
    (r : Ptr × Nat) (hwf : WF st)
    (h : RegionAfter (st.allocate segmentsize s).2 r) :
    regionOrd ((st.allocate segmentsize s).1, roundUp s) r := by
  obtain ⟨ch, al, ni, ba⟩ := st
  simp only [WF] at hwf
  match ch with
  | [] =>
    rw [allocate_eq_empty] at h ⊢
    simp only [RegionAfter, headId] at h
    simp only [regionOrd]
    obtain ⟨h1, h2⟩ := h
    intro hseg
    have hx : sizeofSegment + roundUp s ≤ r.1.off := h1 (by
      simpa using hseg)
    omega
  | head :: rest =>
    have hhead : head.id < ni := hwf head (List.mem_cons_self _ _)
    by_cases hc1 : arena_size segmentsize ≤ roundUp s
    · rw [allocate_eq_dedicated segmentsize al ni ba head rest s hc1] at h ⊢
      simp only [RegionAfter, headId] at h
      simp only [regionOrd]
      obtain ⟨h1, h2⟩ := h
      intro hseg
      exfalso
      have hx : ni + 1 ≤ r.1.segId := h2 (by
        intro hcon
        have h3 : head.id = r.1.segId := by simpa using hcon
        omega)
      omega
    · by_cases hc2 : arena_size segmentsize < al + roundUp s
      · rw [allocate_eq_newhead segmentsize al ni ba head rest s hc1 hc2] at h ⊢
        simp only [RegionAfter, headId] at h
        simp only [regionOrd]
        obtain ⟨h1, h2⟩ := h
        intro hseg
        have hx : sizeofSegment + roundUp s ≤ r.1.off := h1 (by
          simpa using hseg)
        omega
      · rw [allocate_eq_bump segmentsize al ni ba head rest s hc1 hc2] at h ⊢
        simp only [RegionAfter, headId] at h
        simp only [regionOrd]
        obtain ⟨h1, h2⟩ := h
        intro hseg
        have hx : sizeofSegment + (al + roundUp s) ≤ r.1.off := h1 (by
          simpa using hseg)
        omega

/-- Helper: the rounded sizes recorded along `runAllocs` are exactly the
requests, rounded. -/
theorem runAllocs_snd (segmentsize : Nat) (sizes : List Nat) (st : ArenaState) :
    ((runAllocs segmentsize st sizes).1).map Prod.snd = sizes.map roundUp := by
  induction sizes generalizing st with
  | nil => rfl
  | cons s rest ih => simp [runAllocs, ih]

/-- Helper: from a well-formed state, the regions handed out by a request
sequence are pairwise ordered within each segment, and each is a region
the start state could still hand out. -/
theorem runAllocs_spec (segmentsize : Nat) (sizes : List Nat) (st : ArenaState)
    (hwf : WF st) :
    WF (runAllocs segmentsize st sizes).2 ∧
    (∀ r ∈ (runAllocs segmentsize st sizes).1, RegionAfter st r) ∧
    List.Pairwise regionOrd (runAllocs segmentsize st sizes).1 := by
  induction sizes generalizing st with
  | nil =>
    refine ⟨hwf, ?_, ?_⟩
    · intro r hr
      simp [runAllocs] at hr
    · exact List.Pairwise.nil
  | cons s rest ih =>
    obtain ⟨ihwf, ihafter, ihpair⟩ :=
      ih (st.allocate segmentsize s).2 (WF_allocate segmentsize st s hwf)
    simp only [runAllocs]
    refine ⟨ihwf, ?_, ?_⟩
    · intro r hr
      simp only [List.mem_cons] at hr
      rcases hr with hr | hr
      · rw [hr]
        exact RegionAfter_self segmentsize st s hwf
      · exact RegionAfter_allocate segmentsize st s r hwf (ihafter r hr)
    · rw [List.pairwise_cons]
      refine ⟨?_, ihpair⟩
      intro r hr
      exact regionOrd_allocate segmentsize st s r hwf (ihafter r hr)

/-- Claim C5 fails on the code as stated: two zero-byte requests (each a
legal size, at most the usable capacity) on a fresh `arena_allocator<64>`
return the same address in the same segment, so the addresses returned
within one segment are not strictly increasing in call order. -/
theorem fresh_arena_zero_size_counterexample :
    (∀ s ∈ [0, 0], s ≤ arena_size 64) ∧
    (runAllocs 64 initialArena [0, 0]).1.map Prod.fst =
      [⟨0, sizeofSegment⟩, ⟨0, sizeofSegment⟩] := by
  decide

/-- Helper: a pairwise end-before-start ordering of regions of positive
extent yields strictly increasing start addresses as well. -/
theorem pairwise_strict_of_pos (l : List (Ptr × Nat)) :
    (∀ r ∈ l, 1 ≤ r.2) → List.Pairwise regionOrd l →
    List.Pairwise
      (fun r1 r2 => r1.1.segId = r2.1.segId →
        r1.1.off + r1.2 ≤ r2.1.off ∧ r1.1.off < r2.1.off) l := by
  induction l with
  | nil =>
    intro _ _
    exact List.Pairwise.nil
  | cons a l ihl =>
    intro hmem hp
    rw [List.pairwise_cons] at hp ⊢
    refine ⟨?_, ihl (fun r hr => hmem r (List.mem_cons_of_mem _ hr)) hp.2⟩
    intro b hb heq
    have h1 := hp.1 b hb heq
    have ha := hmem a (List.mem_cons_self _ _)
    exact ⟨h1, by omega⟩

/-- Claim C5 (amended to positive request sizes): on a fresh arena, for
any sequence of positive requests each at most the usable capacity, the
returned regions are pairwise non-overlapping, each holds at least the
requested (word-rounded) number of bytes, and within any single segment
the returned addresses are strictly increasing in call order. -/
theorem fresh_arena_allocs_ordered (segmentsize : Nat) (sizes : List Nat)
    (hpos : ∀ s ∈ sizes, 1 ≤ s)
    (hsmall : ∀ s ∈ sizes, s ≤ arena_size segmentsize)
    (hseg : sizeofSegment ≤ segmentsize) :
    allocsSpec segmentsize sizes := by
  obtain ⟨-, -, hpair⟩ := runAllocs_spec segmentsize sizes initialArena
    (by intro seg hs; simp [initialArena] at hs)
  have hsnd := runAllocs_snd segmentsize sizes initialArena
  refine ⟨?_, hsnd, fun s _ => le_roundUp s⟩
  have hmem : ∀ r ∈ (runAllocs segmentsize initialArena sizes).1, 1 ≤ r.2 := by
    intro r hr
    have hm2 : r.2 ∈ ((runAllocs segmentsize initialArena sizes).1).map Prod.snd :=
      List.mem_map_of_mem _ hr
    rw [hsnd] at hm2
    obtain ⟨s, hs, hrs⟩ := List.mem_map.mp hm2
    have h1 := hpos s hs
    have h2 := le_roundUp s
    omega
  exact pairwise_strict_of_pos _ hmem hpair

/-- Witness for the amended C5: requests 16, 16, 40 on a fresh 64-byte
arena (the third starts a new segment). -/
theorem fresh_arena_allocs_ordered_witness :
    (∀ s ∈ [16, 16, 40], 1 ≤ s) ∧
    (∀ s ∈ [16, 16, 40], s ≤ arena_size 64) ∧
    sizeofSegment ≤ 64 ∧
    allocsSpec 64 [16, 16, 40] :=
  ⟨by decide, by decide, by decide,
   fresh_arena_allocs_ordered 64 [16, 16, 40] (by decide) (by decide) (by decide)⟩

/-- Helper (complement of the C1 bug): one `allocate` keeps the cursor
within `arena_size()` provided that, when the arena is empty, the rounded
request fits in a segment — the empty-arena path is the only way the
cursor invariant can break. -/
theorem allocate_cursor_bound (segmentsize : Nat) (st : ArenaState) (s : Nat)
    (h : st.allocated ≤ arena_size segmentsize)
    (hfirst : st.chain = [] → roundUp s ≤ arena_size segmentsize) :
    (st.allocate segmentsize s).2.allocated ≤ arena_size segmentsize := by
  obtain ⟨ch, al, ni, ba⟩ := st
  simp only at h hfirst
  match ch with
  | [] =>
    rw [allocate_eq_empty]
    exact hfirst rfl
  | head :: rest =>
    by_cases hc1 : arena_size segmentsize ≤ roundUp s
    · rw [allocate_eq_dedicated segmentsize al ni ba head rest s hc1]
      exact h
    · by_cases hc2 : arena_size segmentsize < al + roundUp s
      · rw [allocate_eq_newhead segmentsize al ni ba head rest s hc1 hc2]
        show roundUp s ≤ arena_size segmentsize
        omega
      · rw [allocate_eq_bump segmentsize al ni ba head rest s hc1 hc2]
        show al + roundUp s ≤ arena_size segmentsize
        omega

end CS2
